import Mathlib

/-!
Verification of the event-ingestion service in `main.py`
(eight-sleep-mlops-assignment).

The service keeps, per user, a deque of `(timestamp, score)` pairs
(`user_scores`), a stats dictionary guarded by `stats_lock`, and exposes
four HTTP operations: `ingest`, `get_user_median`, `get_stats` and a
health check.  We embed the state and the operations shallowly:

* a deque is a `List` whose head is the left end (`popleft` = drop head,
  `append` = append at the tail);
* the `defaultdict(deque)` is an association list `List (String × Window)`;
  `user_scores[uid]` (creating read) is `lookupU … |>.getD []` followed by
  a `setU`, while `user_scores.get(uid)` (non-creating read) is plain
  `lookupU`;
* Python floats are modelled as `ℚ` (the claims under scrutiny are about
  which values flow where, not float rounding), timestamps as `ℤ`
  (`int(ts)` in the code);
* the Torch model is an abstract `Option` of a scoring function that may
  itself fail, mirroring `_loaded_model` being `None` when the model file
  could not be loaded and `_predict_sync` raising on a scorer error;
* raising `HTTPException` is an `Except` error result, and the wall-clock
  batch duration measured by `time.perf_counter` is an explicit input.
-/

namespace EightSleep

/-- `ROLLING_WINDOW_SECONDS = 300` in `main.py`. -/
def ROLLING_WINDOW_SECONDS : Int := 300

/-- One `(timestamp, score)` entry of a user's deque. -/
abbrev Sample := Int × ℚ

/-- A user's deque of samples, head = left end. -/
abbrev Window := List Sample

/-- The `user_scores` map: `defaultdict(deque)` as an association list. -/
abbrev Store := List (String × Window)

/-- Non-creating lookup, i.e. Python's `dict.get`: returns `none` when the
user is unknown. -/
def lookupU : Store → String → Option Window
  | [], _ => none
  | (k, v) :: rest, uid => if k = uid then some v else lookupU rest uid

/-- Store `w` under `uid`, overwriting an existing binding or appending a
new one; together with `lookupU … |>.getD []` this models the creating
read `user_scores[uid]` of the `defaultdict` followed by the in-place
mutation of the deque. -/
def setU : Store → String → Window → Store
  | [], uid, w => [(uid, w)]
  | (k, v) :: rest, uid, w =>
      if k = uid then (uid, w) :: rest else (k, v) :: setU rest uid w

/-- Body of `_update_user_scores` acting on one deque:
`dq.append((timestamp, score))` then
`while dq and dq[0][0] < cutoff: dq.popleft()` with
`cutoff = timestamp - ROLLING_WINDOW_SECONDS`.  The while loop removes
exactly the maximal head run of entries below the cutoff, which is
`List.dropWhile`. -/
def updateWindow (timestamp : Int) (score : ℚ) (dq : Window) : Window :=
  (dq ++ [(timestamp, score)]).dropWhile
    (fun p => decide (p.1 < timestamp - ROLLING_WINDOW_SECONDS))

/-- `_update_user_scores(user_id, timestamp, score)`: fetch the user's
deque (creating it empty if absent), append the new sample, prune from
the left. -/
def updateUserScores (userId : String) (timestamp : Int) (score : ℚ)
    (us : Store) : Store :=
  setU us userId (updateWindow timestamp score ((lookupU us userId).getD []))

/-- Errors a scoring call can produce: `_loaded_model is None`
(`RuntimeError "Model not loaded…"`) or the model itself raising. -/
inductive ScoreErr where
  | unavailable
  | failed
deriving DecidableEq, Repr

/-- Abstract model: a scoring function that may fail on given inputs
(Torch internals are out of scope; only success/failure and the produced
value matter). -/
abbrev Model := List ℚ → Except Unit ℚ

/-- `_predict_sync(features)`: raises `RuntimeError` when `_loaded_model`
is `None`, otherwise runs the model, which may itself raise. -/
def predictSync (loadedModel : Option Model) (features : List ℚ) :
    Except ScoreErr ℚ :=
  match loadedModel with
  | none => .error .unavailable
  | some m =>
      match m features with
      | .ok v => .ok v
      | .error _ => .error .failed

/-- An incoming event object; each field is `event.get(...)`, `none` both
for a missing key and for an explicit `null`. -/
structure Event where
  user_id : Option String
  timestamp : Option Int
  features : Option (List ℚ)

/-- The JSON body of `/ingest`: `payload.get("events")`. -/
structure Payload where
  events : Option (List Event)

/-- The `stats` dictionary. -/
structure Stats where
  ingest_requests : Nat
  events_processed : Nat
  median_requests : Nat
  ingest_latencies : List ℚ
deriving Repr, DecidableEq

/-- The whole shared mutable state of the service. -/
structure ServerState where
  user_scores : Store
  stats : Stats

/-- The `for event in events` loop of `ingest`: per item, skip when any of
`user_id`, `timestamp`, `features` is `None`, then score (skipping on any
scoring exception), then `_update_user_scores` and increment the local
`processed_count`. -/
def processEvents (loadedModel : Option Model) :
    List Event → Store → Store × Nat
  | [], us => (us, 0)
  | e :: rest, us =>
      match e.user_id, e.timestamp, e.features with
      | some uid, some ts, some feats =>
          match predictSync loadedModel feats with
          | .error _ => processEvents loadedModel rest us
          | .ok score =>
              let us' := updateUserScores uid ts score us
              let (us'', n) := processEvents loadedModel rest us'
              (us'', n + 1)
      | _, _, _ => processEvents loadedModel rest us

/-- `HTTPException(status_code, detail)`. -/
structure HTTPError where
  status_code : Nat
  detail : String
deriving Repr, DecidableEq

/-- The `/ingest` handler.  `duration` is the wall-clock time of the whole
batch (`time.perf_counter()` difference), an input here.  Returns the
state after the call together with either the HTTP 400 error (raised
before any stats or window mutation) or the processed count. -/
def ingest (loadedModel : Option Model) (payload : Payload) (duration : ℚ)
    (st : ServerState) : ServerState × Except HTTPError Nat :=
  match payload.events with
  | none => (st, .error ⟨400, "Missing 'events' in request body"⟩)
  | some events =>
      let stats1 := { st.stats with
        ingest_requests := st.stats.ingest_requests + 1 }
      let (us', n) := processEvents loadedModel events st.user_scores
      let stats2 := { stats1 with
        events_processed := stats1.events_processed + n,
        ingest_latencies := stats1.ingest_latencies ++ [duration] }
      (⟨us', stats2⟩, .ok n)

/-- Python's `statistics.median`: sort, take the middle element for odd
length, the mean of the two middle elements for even length.  (On `ℚ` any
sort gives the same list, `insertionSort` is used here.)  Junk value `0`
on `[]`; the code only calls it on nonempty score lists. -/
def pyMedian (l : List ℚ) : ℚ :=
  let s := List.insertionSort (· ≤ ·) l
  let n := s.length
  if n % 2 = 1 then s.getD (n / 2) 0
  else (s.getD (n / 2 - 1) 0 + s.getD (n / 2) 0) / 2

/-- The `/users/{user_id}/median` handler: bump `median_requests`, read
the deque with the non-creating `user_scores.get(user_id)`, return `None`
when the user is unknown or the deque is empty (`if not dq`), otherwise
`median([val for _, val in dq])`. -/
def getUserMedian (userId : String) (st : ServerState) :
    ServerState × Option ℚ :=
  let st' := { st with stats := { st.stats with
    median_requests := st.stats.median_requests + 1 } }
  match lookupU st.user_scores userId with
  | none => (st', none)
  | some dq =>
      if dq.isEmpty then (st', none)
      else (st', some (pyMedian (dq.map Prod.snd)))

/-- The response of `/stats`. -/
structure StatsSnapshot where
  ingest_requests : Nat
  events_processed : Nat
  median_requests : Nat
  avg_ingest_latency_seconds : ℚ
deriving Repr, DecidableEq

/-- Pure computation of the `/stats` response from a stats state:
`sum(latencies)/len(latencies) if latencies else 0.0` plus the three
counters, all read inside one `stats_lock` critical section. -/
def mkSnapshot (s : Stats) : StatsSnapshot :=
  { ingest_requests := s.ingest_requests
    events_processed := s.events_processed
    median_requests := s.median_requests
    avg_ingest_latency_seconds :=
      if s.ingest_latencies.isEmpty then 0
      else s.ingest_latencies.sum / s.ingest_latencies.length }

/-- The `/stats` handler (read-only: the state is returned unchanged). -/
def getStats (st : ServerState) : StatsSnapshot :=
  mkSnapshot st.stats

/-- Spec-side characterisation of a batch item that counts as processed:
all three fields present and the scoring call succeeded.  Used to compare
the code's running counter against the spec's description. -/
def isProcessed (loadedModel : Option Model) (e : Event) : Bool :=
  match e.user_id, e.timestamp, e.features with
  | some _, some _, some f =>
      match predictSync loadedModel f with
      | .ok _ => true
      | .error _ => false
  | _, _, _ => false

/-- Spec-side midpoint formula for the median of an already sorted list:
the single middle value for odd length, the average of the two middle
values for even length. -/
def specMid (s : List ℚ) : ℚ :=
  if s.length % 2 = 1 then s.getD (s.length / 2) 0
  else (s.getD (s.length / 2 - 1) 0 + s.getD (s.length / 2) 0) / 2

/-- Modelled from the spec: `Record` "prunes from the head exactly those
samples with `timestamp < (this_event_timestamp - WINDOW_SECONDS)`" —
i.e. the retained window would be precisely the samples at or above the
cutoff.  This is the spec's description, to be compared against the
code's `updateWindow`. -/
def specPruneAll (timestamp : Int) (score : ℚ) (dq : Window) : Window :=
  (dq ++ [(timestamp, score)]).filter
    (fun p => decide (timestamp - ROLLING_WINDOW_SECONDS ≤ p.1))

/-- A sequence of `Record` calls for one user, oldest call first, applied
to an initial window. -/
def recordAll (evs : List Sample) (w : Window) : Window :=
  evs.foldl (fun w e => updateWindow e.1 e.2 w) w

end EightSleep

namespace EightSleep

/-- C9: a payload without an "events" key makes `ingest` raise HTTP 400
before any mutation: the returned state is exactly the input state (so
`ingest_requests` is not incremented and no latency sample is appended). -/
theorem ingest_missing_events_400 (loadedModel : Option Model) (d : ℚ)
    (st : ServerState) :
    ingest loadedModel ⟨none⟩ d st =
      (st, .error ⟨400, "Missing 'events' in request body"⟩) := by
  rfl

/-- C10: `getUserMedian` never touches the rolling-window store (it reads
through the non-creating `dict.get`), and its only state change is the
`median_requests` increment. -/
theorem getUserMedian_frame (userId : String) (st : ServerState) :
    (getUserMedian userId st).1.user_scores = st.user_scores ∧
    (getUserMedian userId st).1.stats =
      { st.stats with median_requests := st.stats.median_requests + 1 } := by
  unfold getUserMedian
  cases h : lookupU st.user_scores userId with
  | none => exact ⟨rfl, rfl⟩
  | some dq =>
      by_cases hdq : dq.isEmpty <;> simp [hdq]

/-- C4: for any batch with an "events" list, `ingest` returns (with no
error surfacing to the caller) a processed count equal to the number of
items that have all of `user_id`, `timestamp`, `features` present and
whose scoring call succeeded; invalid and failed items are skipped
silently. -/
theorem ingest_processed_count (loadedModel : Option Model)
    (events : List Event) (d : ℚ) (st : ServerState) :
    (ingest loadedModel ⟨some events⟩ d st).2 =
      .ok ((events.filter (isProcessed loadedModel)).length) := by
  have hcount : ∀ (evs : List Event) (us : Store),
      (processEvents loadedModel evs us).2 =
        (evs.filter (isProcessed loadedModel)).length := by
    intro evs
    induction evs with
    | nil => intro us; rfl
    | cons e rest ih =>
        intro us
        cases hu : e.user_id with
        | none => simpa [processEvents, isProcessed, hu] using ih us
        | some uid =>
          cases ht : e.timestamp with
          | none => simpa [processEvents, isProcessed, hu, ht] using ih us
          | some ts =>
            cases hf : e.features with
            | none => simpa [processEvents, isProcessed, hu, ht, hf] using ih us
            | some feats =>
              cases hp : predictSync loadedModel feats with
              | error err =>
                  simpa [processEvents, isProcessed, hu, ht, hf, hp] using ih us
              | ok score =>
                  simp [processEvents, isProcessed, hu, ht, hf, hp, ih,
                    List.filter_cons]
  simp [ingest, hcount]

/-- C5: the `/stats` snapshot returns the three counters as stored and an
average latency that is the arithmetic mean of the recorded latency
samples, `0.0` when none has been recorded. -/
theorem getStats_spec (st : ServerState) :
    (getStats st).ingest_requests = st.stats.ingest_requests ∧
    (getStats st).events_processed = st.stats.events_processed ∧
    (getStats st).median_requests = st.stats.median_requests ∧
    (st.stats.ingest_latencies = [] →
      (getStats st).avg_ingest_latency_seconds = 0) ∧
    (st.stats.ingest_latencies ≠ [] →
      (getStats st).avg_ingest_latency_seconds *
        (st.stats.ingest_latencies.length : ℚ) =
        st.stats.ingest_latencies.sum) := by
  refine ⟨rfl, rfl, rfl, ?_, ?_⟩
  · intro h
    simp [getStats, mkSnapshot, h]
  · intro h
    have hlen0 : st.stats.ingest_latencies.length ≠ 0 := by
      simpa [List.length_eq_zero] using h
    have hlen : (st.stats.ingest_latencies.length : ℚ) ≠ 0 :=
      Nat.cast_ne_zero.mpr hlen0
    simp [getStats, mkSnapshot, List.isEmpty_iff, h]

/-- C5 witness: on latency samples `[1, 3]` the theorem applies and gives
mean `2`. -/
theorem getStats_spec_witness :
    (([1, 3] : List ℚ) ≠ []) ∧
    (getStats ⟨[], ⟨0, 0, 0, [1, 3]⟩⟩).avg_ingest_latency_seconds *
      ((([1, 3] : List ℚ).length : ℚ)) = ([1, 3] : List ℚ).sum :=
  ⟨by decide, (getStats_spec ⟨[], ⟨0, 0, 0, [1, 3]⟩⟩).2.2.2.2 (by decide)⟩

/-- C6: an event missing any of `user_id`, `timestamp` or `features` is
discarded without affecting any state: inside any batch its processing
step is the identity on the window store and the processed count, and for
a singleton batch the call reports `processed = 0`, creates no window
entry, leaves `events_processed` unchanged, and a subsequent `Median`
query for any still-unknown user (in particular the event's own) answers
null. -/
theorem invalid_event_discarded (loadedModel : Option Model) (e : Event)
    (d : ℚ) (st : ServerState)
    (hinvalid : e.user_id = none ∨ e.timestamp = none ∨ e.features = none) :
    (∀ (rest : List Event) (us : Store),
      processEvents loadedModel (e :: rest) us =
        processEvents loadedModel rest us) ∧
    (ingest loadedModel ⟨some [e]⟩ d st).2 = .ok 0 ∧
    (ingest loadedModel ⟨some [e]⟩ d st).1.user_scores = st.user_scores ∧
    (ingest loadedModel ⟨some [e]⟩ d st).1.stats.events_processed =
        st.stats.events_processed ∧
    (∀ userId, lookupU st.user_scores userId = none →
      (getUserMedian userId (ingest loadedModel ⟨some [e]⟩ d st).1).2 =
        none) := by
  have hskip : ∀ (rest : List Event) (us : Store),
      processEvents loadedModel (e :: rest) us =
        processEvents loadedModel rest us := by
    intro rest us
    rcases hinvalid with hu | ht | hf
    · cases h2 : e.timestamp <;> cases h3 : e.features <;>
        simp [processEvents, hu, h2, h3]
    · cases h1 : e.user_id <;> cases h3 : e.features <;>
        simp [processEvents, h1, ht, h3]
    · cases h1 : e.user_id <;> cases h2 : e.timestamp <;>
        simp [processEvents, h1, h2, hf]
  have h1 : processEvents loadedModel [e] st.user_scores =
      (st.user_scores, 0) := by
    rw [hskip]; rfl
  refine ⟨hskip, ?_, ?_, ?_, ?_⟩
  · simp [ingest, h1]
  · simp [ingest, h1]
  · simp [ingest, h1]
  · intro userId hunknown
    simp [ingest, h1, getUserMedian, hunknown]

/-- C6 witness: the spec's scenario — a single event with `user_id` and
`timestamp` but no `features`, from the empty state. -/
theorem invalid_event_discarded_witness :
    ((some "u1" : Option String) = none ∨ (some (0 : Int) : Option Int) = none ∨
      (none : Option (List ℚ)) = none) ∧
    lookupU ([] : Store) "u1" = none ∧
    (ingest none ⟨some [⟨some "u1", some 0, none⟩]⟩ 0
        ⟨[], ⟨0, 0, 0, []⟩⟩).2 = .ok 0 ∧
    (ingest none ⟨some [⟨some "u1", some 0, none⟩]⟩ 0
        ⟨[], ⟨0, 0, 0, []⟩⟩).1.user_scores = ([] : Store) ∧
    (getUserMedian "u1"
        (ingest none ⟨some [⟨some "u1", some 0, none⟩]⟩ 0
          ⟨[], ⟨0, 0, 0, []⟩⟩).1).2 = none := by
  have h := invalid_event_discarded none ⟨some "u1", some 0, none⟩ 0
    ⟨[], ⟨0, 0, 0, []⟩⟩ (Or.inr (Or.inr rfl))
  exact ⟨Or.inr (Or.inr rfl), rfl, h.2.1, h.2.2.1, h.2.2.2.2 "u1" rfl⟩

/-- C7: with no model loaded (`_loaded_model is None`), every scoring
call fails with the unavailability error instead of crashing, every batch
item is skipped locally (`processed = 0`, windows untouched), and the
`Median` and `Snapshot` operations keep working: the median answer for
any user after such an ingest equals the one before it, and the stats
snapshot is still served, its `events_processed` unchanged. -/
theorem scorer_unavailable_safe :
    (∀ features : List ℚ, predictSync none features = .error .unavailable) ∧
    (∀ (events : List Event) (us : Store),
      processEvents none events us = (us, 0)) ∧
    (∀ (events : List Event) (d : ℚ) (st : ServerState),
      (ingest none ⟨some events⟩ d st).2 = .ok 0) ∧
    (∀ (events : List Event) (d : ℚ) (st : ServerState),
      (ingest none ⟨some events⟩ d st).1.user_scores = st.user_scores) ∧
    (∀ (events : List Event) (d : ℚ) (st : ServerState) (userId : String),
      (getUserMedian userId (ingest none ⟨some events⟩ d st).1).2 =
        (getUserMedian userId st).2) ∧
    (∀ (events : List Event) (d : ℚ) (st : ServerState),
      (getStats (ingest none ⟨some events⟩ d st).1).events_processed =
        st.stats.events_processed) := by
  have hskip : ∀ (events : List Event) (us : Store),
      processEvents none events us = (us, 0) := by
    intro events
    induction events with
    | nil => intro us; rfl
    | cons e rest ih =>
        intro us
        cases hu : e.user_id with
        | none => simpa [processEvents, hu] using ih us
        | some uid =>
          cases ht : e.timestamp with
          | none => simpa [processEvents, hu, ht] using ih us
          | some ts =>
            cases hf : e.features with
            | none => simpa [processEvents, hu, ht, hf] using ih us
            | some feats =>
                simpa [processEvents, hu, ht, hf, predictSync] using ih us
  refine ⟨fun _ => rfl, hskip, ?_, ?_, ?_, ?_⟩
  · intro events d st; simp [ingest, hskip]
  · intro events d st; simp [ingest, hskip]
  · intro events d st userId
    have husers : (ingest none ⟨some events⟩ d st).1.user_scores =
        st.user_scores := by simp [ingest, hskip]
    unfold getUserMedian
    rw [husers]
    cases lookupU st.user_scores userId with
    | none => rfl
    | some dq => by_cases hdq : dq.isEmpty <;> simp [hdq]
  · intro events d st; simp [ingest, getStats, mkSnapshot, hskip]

/-- Timestamps of a window (or of a call sequence) are non-decreasing
from head to tail. -/
def TsMono (l : List Sample) : Prop :=
  List.Pairwise (fun a b : Sample => a.1 ≤ b.1) l

instance : DecidablePred TsMono := fun l => by
  unfold TsMono; infer_instance

/-- On a timestamp-sorted list, the left prune `dropWhile (·.1 < c)`
leaves only entries at or above the cutoff. -/
theorem mem_dropWhile_ge (c : Int) :
    ∀ l : List Sample, TsMono l →
      ∀ p ∈ l.dropWhile (fun q => decide (q.1 < c)), c ≤ p.1 := by
  intro l
  induction l with
  | nil => intro _ p hp; simp at hp
  | cons a tl ih =>
      intro hmono p hp
      obtain ⟨hhead, htl⟩ := List.pairwise_cons.mp hmono
      by_cases ha : a.1 < c
      · simp only [List.dropWhile_cons, ha, decide_eq_true_eq, if_true,
          decide_eq_true ha] at hp
        exact ih htl p hp
      · simp [List.dropWhile_cons, ha] at hp
        rcases hp with rfl | hmem
        · omega
        · exact le_trans (by omega) (hhead p hmem)

/-- The head element surviving `dropWhile` fails the predicate. -/
theorem head_dropWhile_false {α : Type} (p : α → Bool) :
    ∀ (l : List α) (hd : α) (tl : List α),
      l.dropWhile p = hd :: tl → p hd = false := by
  intro l
  induction l with
  | nil => intro hd tl h; simp at h
  | cons a rest ih =>
      intro hd tl h
      by_cases ha : p a
      · rw [List.dropWhile_cons] at h
        simp only [ha] at h
        exact ih hd tl (by simpa using h)
      · rw [List.dropWhile_cons] at h
        simp only [ha] at h
        rcases h with h
        simp only [Bool.not_eq_true] at ha
        obtain ⟨rfl, rfl⟩ := by
          simpa using (List.cons_eq_cons.mp (by simpa [ha] using h))
        exact ha

/-- The window after a `Record` is a sublist of the appended window. -/
theorem updateWindow_sublist (ts : Int) (s : ℚ) (dq : Window) :
    (updateWindow ts s dq).Sublist (dq ++ [(ts, s)]) :=
  List.dropWhile_sublist _

/-- Appending an event at or after every retained timestamp keeps the
window timestamp-sorted. -/
theorem updateWindow_tsMono (ts : Int) (s : ℚ) (dq : Window)
    (hmono : TsMono dq) (hb : ∀ p ∈ dq, p.1 ≤ ts) :
    TsMono (updateWindow ts s dq) := by
  have happ : TsMono (dq ++ [(ts, s)]) := by
    refine List.pairwise_append.mpr ⟨hmono, List.pairwise_singleton _ _, ?_⟩
    intro a ha b hb'
    rcases List.mem_singleton.mp hb' with rfl
    exact hb a ha
  exact List.Pairwise.sublist (updateWindow_sublist ts s dq) happ

/-- After a `Record` at or beyond every retained timestamp, every
retained sample is at or above the new cutoff. -/
theorem updateWindow_mem_ge (ts : Int) (s : ℚ) (dq : Window)
    (hmono : TsMono dq) (hb : ∀ p ∈ dq, p.1 ≤ ts) :
    ∀ p ∈ updateWindow ts s dq, ts - ROLLING_WINDOW_SECONDS ≤ p.1 := by
  have happ : TsMono (dq ++ [(ts, s)]) := by
    refine List.pairwise_append.mpr ⟨hmono, List.pairwise_singleton _ _, ?_⟩
    intro a ha b hb'
    rcases List.mem_singleton.mp hb' with rfl
    exact hb a ha
  exact mem_dropWhile_ge _ _ happ

/-- Invariant carried through a monotone call sequence: the window stays
timestamp-sorted and bounded by any bound dominating the initial window
and all the calls. -/
theorem recordAll_inv (b : Int) :
    ∀ (evs : List Sample) (w : Window),
      TsMono w →
      (∀ p ∈ w, ∀ q ∈ evs, p.1 ≤ q.1) →
      TsMono evs →
      (∀ p ∈ w, p.1 ≤ b) →
      (∀ q ∈ evs, q.1 ≤ b) →
      TsMono (recordAll evs w) ∧ ∀ p ∈ recordAll evs w, p.1 ≤ b := by
  intro evs
  induction evs with
  | nil => intro w hw _ _ hwb _; exact ⟨hw, hwb⟩
  | cons e rest ih =>
      intro w hw hwe hevs hwb hevb
      obtain ⟨hehead, hrest⟩ := List.pairwise_cons.mp hevs
      have hwle : ∀ p ∈ w, p.1 ≤ e.1 := fun p hp =>
        hwe p hp e (List.mem_cons_self _ _)
      have hstep : recordAll (e :: rest) w =
          recordAll rest (updateWindow e.1 e.2 w) := rfl
      rw [hstep]
      have hw' : TsMono (updateWindow e.1 e.2 w) :=
        updateWindow_tsMono e.1 e.2 w hw hwle
      have hmem' : ∀ p ∈ updateWindow e.1 e.2 w, p ∈ w ++ [(e.1, e.2)] :=
        fun p hp => (updateWindow_sublist e.1 e.2 w).subset hp
      refine ih (updateWindow e.1 e.2 w) hw' ?_ hrest ?_
        (fun q hq => hevb q (List.mem_cons_of_mem _ hq))
      · intro p hp q hq
        rcases List.mem_append.mp (hmem' p hp) with hpw | hpe
        · exact hwe p hpw q (List.mem_cons_of_mem _ hq)
        · rcases List.mem_singleton.mp hpe with rfl
          exact hehead q hq
      · intro p hp
        rcases List.mem_append.mp (hmem' p hp) with hpw | hpe
        · exact hwb p hpw
        · rcases List.mem_singleton.mp hpe with rfl
          exact hevb e (List.mem_cons_self _ _)

/-- C1 (amended): when the `Record` calls of a user arrive in
non-decreasing timestamp order, then after every call (here: the call
`e` closing an arbitrary monotone sequence, the window having started
empty) each retained sample's timestamp is at least the just-inserted
timestamp minus `ROLLING_WINDOW_SECONDS`; the cutoff is the inserted
event's own timestamp, not wall-clock time. -/
theorem window_invariant_of_monotone (evs : List Sample) (e : Sample)
    (hmono : TsMono (evs ++ [e])) :
    ∀ p ∈ recordAll (evs ++ [e]) [],
      e.1 - ROLLING_WINDOW_SECONDS ≤ p.1 := by
  obtain ⟨hevs, _, hbound⟩ := List.pairwise_append.mp hmono
  have hb : ∀ q ∈ evs, q.1 ≤ e.1 := fun q hq =>
    hbound q hq e (List.mem_singleton_self _)
  have hinv := recordAll_inv e.1 evs [] (by simp [TsMono])
    (by simp) hevs (by simp) hb
  have hsplit : recordAll (evs ++ [e]) [] =
      updateWindow e.1 e.2 (recordAll evs []) := by
    simp [recordAll, List.foldl_append]
  rw [hsplit]
  exact updateWindow_mem_ge e.1 e.2 _ hinv.1 hinv.2

/-- C1 witness: the monotone two-call sequence 100, 200. -/
theorem window_invariant_of_monotone_witness :
    TsMono ([((100 : Int), (1 : ℚ))] ++ [((200 : Int), (2 : ℚ))]) ∧
    ∀ p ∈ recordAll ([((100 : Int), (1 : ℚ))] ++ [((200 : Int), (2 : ℚ))]) [],
      (200 : Int) - ROLLING_WINDOW_SECONDS ≤ p.1 :=
  ⟨by decide, window_invariant_of_monotone [(100, 1)] (200, 2) (by decide)⟩

/-- C1 counterexample: for the out-of-order call sequence 1000, 100, 600
the sample recorded at 100 survives the third call although
`100 < 600 - ROLLING_WINDOW_SECONDS`; the claimed invariant fails under
out-of-order arrival. -/
theorem window_invariant_counterexample :
    ¬ (∀ p ∈ recordAll [((1000 : Int), (0 : ℚ)), (100, 0), (600, 0)] [],
        (600 : Int) - ROLLING_WINDOW_SECONDS ≤ p.1) := by
  decide

/-- C2 (amended): `Record` appends at the tail and then prunes exactly
the maximal head run of samples below the new cutoff — the retained
window is the remaining suffix, whose head (if any) is at or above the
cutoff, while every pruned sample was below it; and in the spec's
scenario, after calls at `T` and `T + 400` only the `T + 400` sample
remains. -/
theorem record_prunes_maximal_old_head :
    (∀ (ts : Int) (s : ℚ) (dq : Window),
      ∃ old : Window,
        dq ++ [(ts, s)] = old ++ updateWindow ts s dq ∧
        (∀ p ∈ old, p.1 < ts - ROLLING_WINDOW_SECONDS) ∧
        (∀ hd tl, updateWindow ts s dq = hd :: tl →
          ts - ROLLING_WINDOW_SECONDS ≤ hd.1)) ∧
    (∀ (T : Int) (s₁ s₂ : ℚ),
      recordAll [(T, s₁), (T + 400, s₂)] [] = [(T + 400, s₂)]) := by
  constructor
  · intro ts s dq
    refine ⟨(dq ++ [(ts, s)]).takeWhile
        (fun q => decide (q.1 < ts - ROLLING_WINDOW_SECONDS)), ?_, ?_, ?_⟩
    · exact (List.takeWhile_append_dropWhile _ _).symm
    · intro p hp
      exact of_decide_eq_true
        (List.mem_takeWhile_imp
          (p := fun q : Sample => decide (q.1 < ts - ROLLING_WINDOW_SECONDS)) hp)
    · intro hd tl h
      have := head_dropWhile_false _ _ hd tl h
      simp only [decide_eq_false_iff_not, not_lt] at this
      exact this
  · intro T s₁ s₂
    have h1 : updateWindow T s₁ [] = [(T, s₁)] := by
      simp [updateWindow, ROLLING_WINDOW_SECONDS, List.dropWhile_cons,
        show ¬(T < T - 300) by omega]
    have h2 : updateWindow (T + 400) s₂ [(T, s₁)] = [(T + 400, s₂)] := by
      simp [updateWindow, ROLLING_WINDOW_SECONDS, List.dropWhile_cons,
        show T < T + 400 - 300 by omega, show ¬(T + 400 < T + 400 - 300) by omega]
    show updateWindow (T + 400) s₂ (updateWindow T s₁ []) = [(T + 400, s₂)]
    rw [h1, h2]

/-- C2 witness: at the concrete out-of-order input `(500, 10)` then a
call at `400`, the surviving head of the window is the sample at 500,
which the theorem places at or above the cutoff. -/
theorem record_prunes_maximal_old_head_witness :
    (400 : Int) - ROLLING_WINDOW_SECONDS ≤ (500 : Int) := by
  obtain ⟨old, _, _, hhead⟩ :=
    record_prunes_maximal_old_head.1 400 3 [((500 : Int), (1 : ℚ)), (10, 2)]
  exact hhead (500, 1) [(10, 2), (400, 3)] (by decide)

/-- C2 counterexample: the code does not prune *exactly* the samples
below the cutoff — after calls at 500, 10, 400 the sample at 10 is
shielded by the newer head and survives, so the window differs from the
spec's prune-everything-below-cutoff description. -/
theorem prune_exactly_counterexample :
    updateWindow 400 3 [((500 : Int), (1 : ℚ)), (10, 2)] ≠
      specPruneAll 400 3 [((500 : Int), (1 : ℚ)), (10, 2)] := by
  decide

/-- C3: `Median` answers null exactly for an unknown user or an empty
window, and otherwise the standard median of the scores currently in the
window: there is a sorted rearrangement `s` of the window's scores such
that the answer is its middle element (odd length) or the average of its
two middle elements (even length). -/
theorem getUserMedian_spec (st : ServerState) (userId : String) :
    ((getUserMedian userId st).2 = none ↔
      lookupU st.user_scores userId = none ∨
      lookupU st.user_scores userId = some []) ∧
    (∀ dq : Window, lookupU st.user_scores userId = some dq → dq ≠ [] →
      ∃ s : List ℚ, (dq.map Prod.snd).Perm s ∧ s.Sorted (· ≤ ·) ∧
        (getUserMedian userId st).2 = some (specMid s)) := by
  constructor
  · unfold getUserMedian
    cases h : lookupU st.user_scores userId with
    | none => simp
    | some dq =>
        by_cases hdq : dq.isEmpty
        · have : dq = [] := List.isEmpty_iff.mp hdq
          simp [hdq, this]
        · have : dq ≠ [] := by
            intro hnil; exact hdq (by simp [hnil])
          simp [hdq, this]
  · intro dq hdq hne
    refine ⟨List.insertionSort (· ≤ ·) (dq.map Prod.snd),
      (List.perm_insertionSort _ _).symm, List.sorted_insertionSort _ _, ?_⟩
    have hdq' : ¬ dq.isEmpty := by
      intro h; exact hne (List.isEmpty_iff.mp h)
    simp only [getUserMedian, hdq, hdq', Bool.false_eq_true, if_false]
    simp [pyMedian, specMid]

/-- C3 witness: window scores `[3, 1, 2]` yield median `2` via the
sorted rearrangement. -/
theorem getUserMedian_spec_witness :
    (lookupU ([("u", [((0 : Int), (3 : ℚ)), (10, 1), (20, 2)])] : Store) "u" =
      some [((0 : Int), (3 : ℚ)), (10, 1), (20, 2)]) ∧
    (([((0 : Int), (3 : ℚ)), (10, 1), (20, 2)] : Window) ≠ []) ∧
    ∃ s : List ℚ,
      (([((0 : Int), (3 : ℚ)), (10, 1), (20, 2)] : Window).map Prod.snd).Perm s ∧
      s.Sorted (· ≤ ·) ∧
      (getUserMedian "u"
        ⟨[("u", [((0 : Int), (3 : ℚ)), (10, 1), (20, 2)])], ⟨0, 0, 0, []⟩⟩).2 =
        some (specMid s) :=
  ⟨rfl, by decide,
    (getUserMedian_spec
      ⟨[("u", [((0 : Int), (3 : ℚ)), (10, 1), (20, 2)])], ⟨0, 0, 0, []⟩⟩ "u").2
      [((0 : Int), (3 : ℚ)), (10, 1), (20, 2)] rfl (by decide)⟩

/-!
Concurrency model for the stats dictionary.  Every mutation of `stats`
in `main.py` happens inside an `async with stats_lock:` block that
contains no `await`, so under the single-threaded asyncio event loop plus
the lock each block executes indivisibly.  The blocks are:

* `stats["ingest_requests"] += 1` (start of `ingest`),
* `stats["events_processed"] += n; stats["ingest_latencies"].append(d)`
  (end of `ingest`, one block for both),
* `stats["median_requests"] += 1` (in `get_user_median`),
* the four reads of `get_stats` (one block).

An execution under any interleaving of concurrent handlers is therefore a
sequence of these atomic steps; we quantify over all such sequences.
-/

/-- One atomic mutation of the stats dictionary. -/
inductive StatsOp where
  | incIngest
  | addProcessed (count : Nat) (latency : ℚ)
  | incMedian
deriving DecidableEq, Repr

/-- Effect of one atomic mutation, exactly the statements inside the
corresponding `stats_lock` block. -/
def applyOp (s : Stats) : StatsOp → Stats
  | .incIngest => { s with ingest_requests := s.ingest_requests + 1 }
  | .addProcessed n lat =>
      { s with events_processed := s.events_processed + n,
               ingest_latencies := s.ingest_latencies ++ [lat] }
  | .incMedian => { s with median_requests := s.median_requests + 1 }

/-- Apply a sequence of mutations in order. -/
def runOps (s : Stats) (ops : List StatsOp) : Stats :=
  ops.foldl applyOp s

/-- One atomic step of an interleaved execution: a mutation or the
single-critical-section read of `/stats`. -/
inductive AtomicStep where
  | mutate (op : StatsOp)
  | readSnap
deriving DecidableEq, Repr

/-- Run an interleaving: final stats state plus the list of snapshots
returned by the `/stats` reads, in order. -/
def runSteps : Stats → List AtomicStep → Stats × List StatsSnapshot
  | s, [] => (s, [])
  | s, .mutate op :: rest => runSteps (applyOp s op) rest
  | s, .readSnap :: rest =>
      ((runSteps s rest).1, mkSnapshot s :: (runSteps s rest).2)

/-- The mutations of an interleaving, in order. -/
def muts : List AtomicStep → List StatsOp
  | [] => []
  | .mutate op :: rest => op :: muts rest
  | .readSnap :: rest => muts rest

/-- Number of ingest-request increments in a mutation sequence. -/
def numIngest : List StatsOp → Nat
  | [] => 0
  | .incIngest :: rest => numIngest rest + 1
  | _ :: rest => numIngest rest

/-- Number of median-request increments in a mutation sequence. -/
def numMedian : List StatsOp → Nat
  | [] => 0
  | .incMedian :: rest => numMedian rest + 1
  | _ :: rest => numMedian rest

/-- Total of the processed counts in a mutation sequence. -/
def sumProcessed : List StatsOp → Nat
  | [] => 0
  | .addProcessed n _ :: rest => n + sumProcessed rest
  | _ :: rest => sumProcessed rest

/-- The latency samples contributed by a mutation sequence, in order. -/
def latsOf : List StatsOp → List ℚ
  | [] => []
  | .addProcessed _ lat :: rest => lat :: latsOf rest
  | _ :: rest => latsOf rest

theorem runSteps_ingest_requests :
    ∀ (steps : List AtomicStep) (init : Stats),
      (runSteps init steps).1.ingest_requests =
        init.ingest_requests + numIngest (muts steps) := by
  intro steps
  induction steps with
  | nil => intro init; simp [runSteps, muts, numIngest]
  | cons a rest ih =>
      intro init
      cases a with
      | mutate op =>
          cases op <;>
            simp [runSteps, muts, numIngest, applyOp, ih] <;> omega
      | readSnap => simp [runSteps, muts, ih]

theorem runSteps_events_processed :
    ∀ (steps : List AtomicStep) (init : Stats),
      (runSteps init steps).1.events_processed =
        init.events_processed + sumProcessed (muts steps) := by
  intro steps
  induction steps with
  | nil => intro init; simp [runSteps, muts, sumProcessed]
  | cons a rest ih =>
      intro init
      cases a with
      | mutate op =>
          cases op <;>
            simp [runSteps, muts, sumProcessed, applyOp, ih] <;> omega
      | readSnap => simp [runSteps, muts, ih]

theorem runSteps_median_requests :
    ∀ (steps : List AtomicStep) (init : Stats),
      (runSteps init steps).1.median_requests =
        init.median_requests + numMedian (muts steps) := by
  intro steps
  induction steps with
  | nil => intro init; simp [runSteps, muts, numMedian]
  | cons a rest ih =>
      intro init
      cases a with
      | mutate op =>
          cases op <;>
            simp [runSteps, muts, numMedian, applyOp, ih] <;> omega
      | readSnap => simp [runSteps, muts, ih]

theorem runSteps_latencies :
    ∀ (steps : List AtomicStep) (init : Stats),
      (runSteps init steps).1.ingest_latencies =
        init.ingest_latencies ++ latsOf (muts steps) := by
  intro steps
  induction steps with
  | nil => intro init; simp [runSteps, muts, latsOf]
  | cons a rest ih =>
      intro init
      cases a with
      | mutate op =>
          cases op <;> simp [runSteps, muts, latsOf, applyOp, ih]
      | readSnap => simp [runSteps, muts, ih]

theorem runSteps_snap_consistent :
    ∀ (steps : List AtomicStep) (init : Stats),
      ∀ out ∈ (runSteps init steps).2,
        ∃ pre suf, steps = pre ++ AtomicStep.readSnap :: suf ∧
          out = mkSnapshot (runOps init (muts pre)) := by
  intro steps
  induction steps with
  | nil => intro init out hout; simp [runSteps] at hout
  | cons a rest ih =>
      intro init out hout
      cases a with
      | mutate op =>
          have hout' : out ∈ (runSteps (applyOp init op) rest).2 := by
            simpa [runSteps] using hout
          obtain ⟨pre, suf, hsteps, hval⟩ := ih (applyOp init op) out hout'
          refine ⟨.mutate op :: pre, suf, by simp [hsteps], ?_⟩
          simpa [muts, runOps] using hval
      | readSnap =>
          have hout' : out = mkSnapshot init ∨
              out ∈ (runSteps init rest).2 := by
            simpa [runSteps] using hout
          rcases hout' with rfl | hmem
          · exact ⟨[], rest, rfl, by simp [muts, runOps]⟩
          · obtain ⟨pre, suf, hsteps, hval⟩ := ih init out hmem
            refine ⟨.readSnap :: pre, suf, by simp [hsteps], ?_⟩
            simpa [muts] using hval

/-- C8: over every interleaving of the atomic stats critical sections,
the final counters equal the initial ones plus exactly the contributions
of the interleaved mutations (no increment or latency sample is lost or
double-counted — the processed-count addition and its latency append land
together), and every `/stats` snapshot equals the pure snapshot of the
state reached at the single instant of its read (no torn reads across
the four fields). -/
theorem stats_atomic_interleaving (steps : List AtomicStep) (init : Stats) :
    (runSteps init steps).1.ingest_requests =
        init.ingest_requests + numIngest (muts steps) ∧
    (runSteps init steps).1.events_processed =
        init.events_processed + sumProcessed (muts steps) ∧
    (runSteps init steps).1.median_requests =
        init.median_requests + numMedian (muts steps) ∧
    (runSteps init steps).1.ingest_latencies =
        init.ingest_latencies ++ latsOf (muts steps) ∧
    (∀ out ∈ (runSteps init steps).2,
      ∃ pre suf, steps = pre ++ AtomicStep.readSnap :: suf ∧
        out = mkSnapshot (runOps init (muts pre))) :=
  ⟨runSteps_ingest_requests steps init,
   runSteps_events_processed steps init,
   runSteps_median_requests steps init,
   runSteps_latencies steps init,
   runSteps_snap_consistent steps init⟩

/-- C8 witness: a concrete interleaving whose snapshot captures the
state after one ingest-request increment and one processed-count update. -/
theorem stats_atomic_interleaving_witness :
    ∃ pre suf,
      ([AtomicStep.mutate .incIngest, .mutate (.addProcessed 2 (1/2)), .readSnap,
        .mutate .incMedian] : List AtomicStep) =
        pre ++ AtomicStep.readSnap :: suf ∧
      mkSnapshot ⟨1, 2, 0, [1/2]⟩ =
        mkSnapshot (runOps ⟨0, 0, 0, []⟩ (muts pre)) :=
  (stats_atomic_interleaving
      [AtomicStep.mutate .incIngest, .mutate (.addProcessed 2 (1/2)), .readSnap,
        .mutate .incMedian] ⟨0, 0, 0, []⟩).2.2.2.2
    (mkSnapshot ⟨1, 2, 0, [1/2]⟩)
    (by
      have h : (runSteps (⟨0, 0, 0, []⟩ : Stats)
          [AtomicStep.mutate .incIngest, .mutate (.addProcessed 2 (1/2)),
            .readSnap, .mutate .incMedian]).2 =
          [mkSnapshot ⟨1, 2, 0, [1/2]⟩] := rfl
      rw [h]
      exact List.mem_singleton_self _)

end EightSleep
